import Mathlib

/-!
Verification development for `scripts/fetch_7shifts_to_firestore.py`, a weekly
sales sync pipeline.  The script's core logic is embedded shallowly:

* Python `Decimal` values are modelled as exact rationals (`ℚ`).  Construction
  from ints, floats and decimal strings is exact in Python as well; the default
  context's 28-digit precision is modelled at `quantize` (the `money` helper),
  which is where the pipeline first hits it at any realistic magnitude.
  Addition/subtraction of `Decimal`s is modelled as exact, which agrees with
  Python below 28 significant digits.
* Python `float`s are modelled as rationals together with an explicit
  round-to-nearest-even function onto the 53-bit significand grid
  (`roundFloat`), covering all positive magnitudes as normal
  doubles (no denormals, overflow, NaN or infinities).  Special values (NaN/Infinity) and
  whitespace/underscore-padded numeric strings are outside the modelled domain.
* `str(float)` (shortest round-tripping decimal representation) is modelled by
  `shortestDec`, which returns the decimal *value* Python would print: the
  nearest decimal with the fewest significant digits (up to 17) that rounds
  back to the same double.
* JSON values are the inductive `Js`; records are association lists with the
  first binding of a key winning, as in a Python dict.
-/

/-! ### Decimal digit strings -/

/-- The decimal digit character for `n < 10` (`'?'` otherwise). -/
def digitChar : ℕ → Char
  | 0 => '0' | 1 => '1' | 2 => '2' | 3 => '3' | 4 => '4'
  | 5 => '5' | 6 => '6' | 7 => '7' | 8 => '8' | 9 => '9'
  | _ => '?'

/-- Digit-string worker, structurally recursive on a fuel bound (`n < fuel`
suffices, since `n / 10 < n` for `n ≥ 10`). -/
def natCharsAux : ℕ → ℕ → List Char
  | 0, _ => []
  | f + 1, n => if n < 10 then [digitChar n] else natCharsAux f (n / 10) ++ [digitChar (n % 10)]

/-- Decimal digit characters of `n`, most significant first. -/
def natChars (n : ℕ) : List Char := natCharsAux (n + 1) n

/-- Number of decimal digits of `n` (`1` for `0`), the length of a Python
`Decimal` coefficient. -/
def digitCount (n : ℕ) : ℕ := (natChars n).length

/-- `n` rendered with leading zeros to width 2 (for cents and date parts). -/
def pad2 (n : ℕ) : List Char := if n < 10 then '0' :: natChars n else natChars n

/-- `n` rendered with leading zeros to width 4 (for years, as `strftime %Y`). -/
def pad4 (n : ℕ) : List Char :=
  List.replicate (4 - (natChars n).length) '0' ++ natChars n

/-- Decimal digit test (ASCII 48..57). -/
def isDig (c : Char) : Bool := 48 ≤ c.toNat && c.toNat ≤ 57

/-- Numeric value of a digit character. -/
def digVal (c : Char) : ℕ := c.toNat - 48

/-- Value of a string of digit characters, most significant first. -/
def digitsVal (l : List Char) : ℕ := l.foldl (fun a c => a * 10 + digVal c) 0

/-! ### Reducible rational arithmetic

The standard `Rat` operations are `@[irreducible]`, which blocks kernel
evaluation in `decide`; these wrappers compute the same values through
`mkRat`.  Bridge lemmas below identify them with the standard operations.
-/

/-- Reducible rational addition (`= a + b`). -/
def qadd (a b : ℚ) : ℚ := mkRat (a.num * b.den + b.num * a.den) (a.den * b.den)

/-- Reducible rational negation (`= -a`). -/
def qneg (a : ℚ) : ℚ := mkRat (-a.num) a.den

/-- Reducible rational subtraction (`= a - b`). -/
def qsub (a b : ℚ) : ℚ := qadd a (qneg b)

/-- Reducible rational multiplication (`= a * b`). -/
def qmul (a b : ℚ) : ℚ := mkRat (a.num * b.num) (a.den * b.den)

/-- Reducible rational inverse (`= a⁻¹`). -/
def qinv (a : ℚ) : ℚ :=
  if a.num < 0 then mkRat (-(a.den : ℤ)) a.num.natAbs else mkRat (a.den : ℤ) a.num.natAbs

/-- Reducible rational division (`= a / b`). -/
def qdiv (a b : ℚ) : ℚ := qmul a (qinv b)

/-- Reducible integer-to-rational coercion (`= (n : ℚ)`). -/
def intQ (n : ℤ) : ℚ := mkRat n 1

/-- `c` cents as an exact decimal value (`= c / 100`). -/
def centsQ (c : ℤ) : ℚ := mkRat c 100

/-! ### Parsing decimal literals

Model of the numeric-literal parsing shared by Python's `float(str)` and
`Decimal(str)`: optional sign, digits with at most one dot, optional exponent.
-/

/-- `10^k` as a rational, for an integer exponent. -/
def pow10 (k : ℤ) : ℚ :=
  if 0 ≤ k then ((10 ^ k.toNat : ℕ) : ℚ) else qinv ((10 ^ (-k).toNat : ℕ) : ℚ)

/-- `10^k` as a rational, for a natural exponent. -/
def pow10n (k : ℕ) : ℚ := ((10 ^ k : ℕ) : ℚ)

/-- Strip one leading sign character; returns (isNegative, rest). -/
def parseSign (l : List Char) : Bool × List Char :=
  match l with
  | c :: t => if c = '-' then (true, t) else if c = '+' then (false, t) else (false, l)
  | [] => (false, l)

/-- Parse an unsigned mantissa: digits with at most one dot. -/
def parseMant (l : List Char) : Option ℚ :=
  let ip := l.takeWhile (fun c => c != '.')
  match l.drop ip.length with
  | [] => if !ip.isEmpty && ip.all isDig then some ((digitsVal ip : ℕ) : ℚ) else none
  | _ :: fp =>
    if !(ip ++ fp).isEmpty && (ip ++ fp).all isDig then
      some (qadd (digitsVal ip : ℚ) (qdiv (digitsVal fp : ℚ) (pow10n fp.length)))
    else none

/-- Split at the first `e`/`E`, if any. -/
def splitExpChars (l : List Char) : List Char × Option (List Char) :=
  let m := l.takeWhile (fun c => c != 'e' && c != 'E')
  match l.drop m.length with
  | [] => (m, none)
  | _ :: ex => (m, some ex)

/-- Parse a signed integer exponent part. -/
def parseExpPart (l : List Char) : Option ℤ :=
  let sr := parseSign l
  if !sr.2.isEmpty && sr.2.all isDig then
    some (if sr.1 then -(digitsVal sr.2 : ℤ) else (digitsVal sr.2 : ℤ))
  else none

/-- Parse a finite decimal literal (character-list form). -/
def parseDecCore (l : List Char) : Option ℚ :=
  let sr := parseSign l
  let me := splitExpChars sr.2
  match parseMant me.1 with
  | none => none
  | some v =>
    let sv := if sr.1 then qneg v else v
    match me.2 with
    | none => some sv
    | some e =>
      match parseExpPart e with
      | none => none
      | some k => some (qmul sv (pow10 k))

/-- Parse a finite decimal literal from a string. -/
def parseDecLit (s : String) : Option ℚ := parseDecCore s.toList

/-! ### Rounding -/

/-- Floor of a rational as an integer (`num.ediv den`; Euclidean division by a
positive denominator is floor division). -/
def ratFloor (x : ℚ) : ℤ := x.num / (x.den : ℤ)

/-- Floor of a nonnegative rational as a natural number. -/
def ratFloorNat (q : ℚ) : ℕ := q.num.toNat / q.den

/-- Round a rational to the nearest integer, ties to even — the rounding of
Python's default decimal context (`ROUND_HALF_EVEN`) and of IEEE-754. -/
def rnE (x : ℚ) : ℤ :=
  let f := ratFloor x
  let r := qsub x (intQ f)
  if r < mkRat 1 2 then f
  else if mkRat 1 2 < r then f + 1
  else if f % 2 = 0 then f else f + 1

/-! ### The `money` helper

`money(x)` in the source: `Decimal(x).quantize(Decimal('0.01'))` under the
default context (precision 28, `ROUND_HALF_EVEN`), retried through `str(x)`,
and `"0.00"` on failure.  `quantize` raises `InvalidOperation` when the
resulting coefficient would exceed 28 digits, in which case the `str` retry
fails identically and `money` returns `"0.00"`.
-/

/-- Cents rendered as a fixed two-fraction-digit money string (sign, integer
part, dot, two digits) — the `str` of a quantized `Decimal`. -/
def centsRender (neg : Bool) (n : ℕ) : List Char :=
  (if neg then ['-'] else []) ++ natChars (n / 100) ++ '.' :: pad2 (n % 100)

/-- `money` on an exact decimal value (the path taken for `Decimal` inputs). -/
def moneyDec (d : ℚ) : String :=
  let c : ℤ := rnE (qmul d 100)
  if digitCount c.natAbs ≤ 28 then (centsRender (decide (d < 0)) c.natAbs).asString
  else "0.00"

/-- An integer number of cents as a canonical money string. -/
def formatCents (c : ℤ) : String := (centsRender (decide (c < 0)) c.natAbs).asString

/-! ### IEEE-754 double model

A double is a rational of the form `m * 2^(e-52)` with `2^52 ≤ m < 2^53`.
`roundFloat` sends any rational in the modelled normal range onto that grid by
round-to-nearest, ties-to-even; outside the range it is the identity (the
pipeline's sales figures stay far inside it).
-/

/-- `2^k` as a rational, for an integer exponent. -/
def pow2 (k : ℤ) : ℚ :=
  if 0 ≤ k then ((2 ^ k.toNat : ℕ) : ℚ) else qinv ((2 ^ (-k).toNat : ℕ) : ℚ)

/-- Base-2 logarithm worker, structurally recursive on a fuel bound. -/
def log2Aux : ℕ → ℕ → ℕ
  | 0, _ => 0
  | f + 1, n => if n < 2 then 0 else log2Aux f (n / 2) + 1

/-- Floor base-2 logarithm (`natLog2 n = Nat.log2 n`). -/
def natLog2 (n : ℕ) : ℕ := log2Aux n n

/-- The binary exponent `e` with `2^e ≤ q < 2^(e+1)`, for positive `q`. -/
def binExp (q : ℚ) : ℤ :=
  if 1 ≤ q then (natLog2 (ratFloorNat q) : ℤ)
  else
    let r := qinv q
    let m := natLog2 (ratFloorNat r)
    if r ≤ ((2 ^ m : ℕ) : ℚ) then -(m : ℤ) else -(m : ℤ) - 1

/-- Round a positive rational onto the 53-bit significand grid. -/
def roundPos (q : ℚ) : ℚ :=
  let e := binExp q
  qmul (intQ (rnE (qdiv q (pow2 (e - 52))))) (pow2 (e - 52))

/-- Round-to-nearest-even onto the double grid (identity outside the modelled
normal range). -/
def roundFloat (q : ℚ) : ℚ :=
  if q = 0 then 0 else if q < 0 then qneg (roundPos (qneg q)) else roundPos q

/-- IEEE double addition: exact sum, then rounded. -/
def fladd (a b : ℚ) : ℚ := roundFloat (qadd a b)

/-- The decimal exponent `t` with `10^t ≤ q < 10^(t+1)`, for positive `q`. -/
def decExp (q : ℚ) : ℤ :=
  if 1 ≤ q then (digitCount (ratFloorNat q) : ℤ) - 1
  else
    let r := qinv q
    let m := digitCount (ratFloorNat r) - 1
    if r ≤ pow10n m then -(m : ℤ) else -(m : ℤ) - 1

/-- `q` rounded to `p` significant decimal digits (decimal exponent `t`). -/
def sigRound (q : ℚ) (t : ℤ) (p : ℕ) : ℚ :=
  qmul (intQ (rnE (qdiv q (pow10 (t + 1 - p))))) (pow10 (t + 1 - p))

/-- The decimal value of `repr`/`str` of a positive double: the nearest decimal
with the fewest significant digits (≤ 17) that rounds back to the same
double. -/
def shortestPos (q : ℚ) : ℚ :=
  let t := decExp q
  match (((List.range 17).map (fun i => i + 1)).map (sigRound q t)).find?
      (fun c => decide (roundFloat c = q)) with
  | some c => c
  | none => q

/-- The decimal value printed by Python's `str` for a double. -/
def shortestDec (v : ℚ) : ℚ :=
  if v = 0 then 0 else if v < 0 then qneg (shortestPos (qneg v)) else shortestPos v

/-! ### JSON values and records -/

/-- A parsed JSON value, as handled by the script (`r.json()` output, record
fields, Firestore payloads). -/
inductive Js where
  | null : Js
  | bool (b : Bool) : Js
  | num (q : ℚ) : Js
  | str (s : String) : Js
  | arr (xs : List Js) : Js
  | obj (kvs : List (String × Js)) : Js

/-- One sales record: a JSON object, keyed like a Python dict (first binding of
a key wins). -/
def Rec : Type := List (String × Js)

/-- Python-dict lookup on an association list (`row[k]` / `row.get(k)`). -/
def lookupL (l : List (String × Js)) (k : String) : Option Js :=
  match l with
  | [] => none
  | kv :: t => if kv.1 = k then some kv.2 else lookupL t k

/-! ### `money` -/

/-- Values a Python `Decimal` constructor can produce from the script's
inputs: finite decimals, quiet NaN (with sign), infinities and signaling NaN.
(`quantize` propagates quiet NaN but raises on the others, so `money` prints
`NaN` for the former and falls back to `"0.00"` for the latter.) -/
inductive DecV where
  | fin (q : ℚ) : DecV
  | qnan (neg : Bool) : DecV
  | inf : DecV
  | snan : DecV

/-- `Decimal(x)` on a string, including the special-value spellings accepted
by Python (`nan`, `inf`, `infinity`, `snan`, case-insensitive, signed). -/
def pyDecStr (l : List Char) : Option DecV :=
  let sr := parseSign l
  let low := sr.2.map Char.toLower
  if low = ['n', 'a', 'n'] then some (.qnan sr.1)
  else if low = ['i', 'n', 'f'] || low = ['i', 'n', 'f', 'i', 'n', 'i', 't', 'y'] then some .inf
  else if low = ['s', 'n', 'a', 'n'] then some .snan
  else (parseDecCore l).map .fin

/-- `Decimal(x)` (falling back to `Decimal(str(x))`) on a script value:
numbers and bools (bool ⊂ int in Python) convert exactly, numeric strings are
parsed, everything else fails both attempts. -/
def pyDec : Js → Option DecV
  | .num q => some (.fin q)
  | .bool b => some (.fin (if b then 1 else 0))
  | .str s => pyDecStr s.toList
  | _ => none

/-- The source's `money`: quantize to two fraction digits under the default
context, `"0.00"` when both conversion attempts fail (non-numeric input,
infinities, or a coefficient wider than the 28-digit precision). -/
def money (v : Js) : String :=
  match pyDec v with
  | some (.fin d) => moneyDec d
  | some (.qnan neg) => if neg then "-NaN" else "NaN"
  | some .inf => "0.00"
  | some .snan => "0.00"
  | none => "0.00"

/-! ### `pick`: numeric field coalescing -/

/-- `float(x)` on a record value: numbers round onto the double grid (exact
for small ints and for values already doubles), bools map to 0/1, numeric
strings are parsed then rounded, everything else fails both `float(x)` and
`float(str(x))`. -/
def coerce : Js → Option ℚ
  | .num q => some (roundFloat q)
  | .bool b => some (if b then 1 else 0)
  | .str s => (parseDecCore s.toList).map roundFloat
  | _ => none

/-- The source's `pick`: first key present with a non-`None`, float-coercible
value; `float(default)` otherwise. -/
def pick (r : Rec) (keys : List String) (d : ℚ) : ℚ :=
  match keys with
  | [] => roundFloat d
  | k :: ks =>
    match lookupL r k with
    | some .null => pick r ks d
    | some v =>
      match coerce v with
      | some f => f
      | none => pick r ks d
    | none => pick r ks d

/-- Declarative restatement of the spec's FieldCoalescer contract: the value
bound to the first alias that is present with a non-null, numerically
coercible value; the caller-supplied default if no alias yields one. -/
def coalesceSpec (r : Rec) (keys : List String) (d : ℚ) : ℚ :=
  ((keys.filterMap (fun k =>
      match lookupL r k with
      | some .null => none
      | some v => coerce v
      | none => none)).head?).getD (roundFloat d)

/-- An alias that contributes nothing to `pick`: absent, bound to `None`, or
bound to a non-coercible value. -/
def aliasMissB (r : Rec) (k : String) : Bool :=
  match lookupL r k with
  | none => true
  | some .null => true
  | some v => (coerce v).isNone
/-! ### Calendar dates (`datetime.date` arithmetic and `strftime("%Y-%m-%d")`) -/

/-- A Gregorian calendar date. -/
structure CalDate where
  y : ℕ
  m : ℕ
  d : ℕ
deriving DecidableEq

/-- Gregorian leap-year rule. -/
def isLeap (y : ℕ) : Bool := (y % 4 == 0 && y % 100 != 0) || y % 400 == 0

/-- Days in a month. -/
def daysInMonth (y m : ℕ) : ℕ :=
  if m = 2 then (if isLeap y then 29 else 28)
  else if m = 4 ∨ m = 6 ∨ m = 9 ∨ m = 11 then 30
  else 31

/-- The next calendar day. -/
def nextDay (dt : CalDate) : CalDate :=
  if dt.d < daysInMonth dt.y dt.m then ⟨dt.y, dt.m, dt.d + 1⟩
  else if dt.m < 12 then ⟨dt.y, dt.m + 1, 1⟩
  else ⟨dt.y + 1, 1, 1⟩

/-- `monday + dt.timedelta(days=i)`. -/
def addDays (dt : CalDate) : ℕ → CalDate
  | 0 => dt
  | n + 1 => nextDay (addDays dt n)

/-- The source's `to_iso`: `d.strftime("%Y-%m-%d")`. -/
def to_iso (dt : CalDate) : String :=
  (pad4 dt.y ++ '-' :: pad2 dt.m ++ '-' :: pad2 dt.d).asString

/-! ### Week aggregation (`main`'s accumulation loop) -/

/-- Python truthiness of a JSON value, as tested by `if not date_s`. -/
def truthyJs : Js → Bool
  | .null => false
  | .bool b => b
  | .num q => !(q == 0)
  | .str s => !(s == "")
  | .arr xs => !xs.isEmpty
  | .obj kvs => !kvs.isEmpty

/-- The date-field alias chain of `main`. -/
def dateAliases : List String := ["date", "business_date", "day", "sales_date"]

/-- The value of `r.get("date") or r.get("business_date") or r.get("day") or
r.get("sales_date")` when truthy (a falsy chain value is discarded by
`if not date_s`). -/
def rawDate (r : Rec) : Option Js :=
  (dateAliases.filterMap (fun k => lookupL r k)).find? truthyJs

/-- A hashable Python dict key, as used for the day buckets.  (A truthy list
or dict date value would raise `TypeError` in Python and is outside the
modelled domain; a bool key collides with 0/1 in Python but not here, and no
record in scope uses one.) -/
inductive DKey where
  | s (v : String) : DKey
  | n (v : ℚ) : DKey
  | b (v : Bool) : DKey
deriving DecidableEq

/-- The resolved date key of a record, if any. -/
def resolveDate (r : Rec) : Option DKey :=
  match rawDate r with
  | some (.str s) => some (.s s)
  | some (.num q) => some (.n q)
  | some (.bool b) => some (.b b)
  | _ => none

/-- The actual-sales alias list of `main`. -/
def actualAliases : List String :=
  ["actual", "actual_sales", "actual_total", "actuals", "actuals_total"]

/-- The projected-sales alias list of `main`. -/
def projAliases : List String :=
  ["projected", "projected_sales", "projected_total", "forecast", "forecast_total"]

/-- `m[ds] = m.get(ds, 0.0) + v` (float addition; absent keys read as 0.0). -/
def upd (m : DKey → ℚ) (k : DKey) (v : ℚ) : DKey → ℚ :=
  fun k' => if k' = k then fladd (m k) v else m k'

/-- One iteration of `main`'s accumulation loop over `(actual_map, proj_map)`. -/
def aggStep (m : (DKey → ℚ) × (DKey → ℚ)) (r : Rec) : (DKey → ℚ) × (DKey → ℚ) :=
  match resolveDate r with
  | none => m
  | some ds => (upd m.1 ds (pick r actualAliases 0), upd m.2 ds (pick r projAliases 0))

/-- `main`'s accumulation loop: both day buckets, from an empty start. -/
def aggregate (rows : List Rec) : (DKey → ℚ) × (DKey → ℚ) :=
  rows.foldl aggStep (fun _ => 0, fun _ => 0)

/-! ### `build_week_shape` -/

/-- The 8-slot week structure of the source (7 weekday money strings plus
`total`). -/
structure WeekShape where
  mon : String
  tue : String
  wed : String
  thu : String
  fri : String
  sat : String
  sun : String
  total : String
deriving DecidableEq

/-- The raw per-day decimal of `build_week_shape`:
`Decimal(str(day_map.get(iso, 0.0)))` for day `i` of the week. -/
def dayVal (monday : CalDate) (dayMap : DKey → ℚ) (i : ℕ) : ℚ :=
  shortestDec (dayMap (DKey.s (to_iso (addDays monday i))))

/-- The source's `build_week_shape`: each slot is `money` of the raw per-day
decimal; `total` is `money` of their exact running sum. -/
def build_week_shape (monday : CalDate) (dayMap : DKey → ℚ) : WeekShape :=
  { mon := moneyDec (dayVal monday dayMap 0)
    tue := moneyDec (dayVal monday dayMap 1)
    wed := moneyDec (dayVal monday dayMap 2)
    thu := moneyDec (dayVal monday dayMap 3)
    fri := moneyDec (dayVal monday dayMap 4)
    sat := moneyDec (dayVal monday dayMap 5)
    sun := moneyDec (dayVal monday dayMap 6)
    total := moneyDec (qadd (qadd (qadd (qadd (qadd (qadd
      (dayVal monday dayMap 0) (dayVal monday dayMap 1)) (dayVal monday dayMap 2))
      (dayVal monday dayMap 3)) (dayVal monday dayMap 4)) (dayVal monday dayMap 5))
      (dayVal monday dayMap 6)) }

/-- `main`'s aggregation from raw rows to `(proj_week, actual_week)`. -/
def aggregateShapes (monday : CalDate) (rows : List Rec) : WeekShape × WeekShape :=
  (build_week_shape monday (aggregate rows).2, build_week_shape monday (aggregate rows).1)

/-! ### The delta series -/

/-- One delta slot: parse both money strings as exact decimals, subtract, and
re-format (`money(Decimal(a) - Decimal(p))`).  An unparseable slot makes
`Decimal` raise out of `main`, modelled as `none`; pipeline slots are always
parseable. -/
def subSlot (a p : String) : Option String :=
  match parseDecLit a, parseDecLit p with
  | some da, some dp => some (moneyDec (qsub da dp))
  | _, _ => none

/-- `main`'s delta computation over all 7 weekday slots and `total`. -/
def deltaShape (aw pw : WeekShape) : Option WeekShape := do
  let m ← subSlot aw.mon pw.mon
  let t ← subSlot aw.tue pw.tue
  let w ← subSlot aw.wed pw.wed
  let th ← subSlot aw.thu pw.thu
  let f ← subSlot aw.fri pw.fri
  let sa ← subSlot aw.sat pw.sat
  let su ← subSlot aw.sun pw.sun
  let tt ← subSlot aw.total pw.total
  pure ⟨m, t, w, th, f, sa, su, tt⟩
/-! ### `fetch_sales`: endpoint fallback and envelope normalization -/

/-- Envelope normalization of `fetch_sales` on a 200 body: an object with a
`data` array, else a bare array, else an object with a `sales` array, in that
order; anything else raises `ValueError` (caught by the loop). -/
def normalizeBody : Js → Option (List Js)
  | .arr l => some l
  | .obj kvs =>
    match lookupL kvs "data" with
    | some (.arr l) => some l
    | _ =>
      match lookupL kvs "sales" with
      | some (.arr l) => some l
      | _ => none
  | _ => none

/-- Outcome of one candidate request: a raised exception (transport failure or
body-parse failure), or a response with status, parsed body and raw text. -/
inductive HttpResult where
  | exn (msg : String) : HttpResult
  | resp (status : ℕ) (body : Js) (text : String) : HttpResult

/-- Whether a candidate's outcome makes the loop move on (anything but a 200
with a recognized envelope). -/
def failsB : HttpResult → Bool
  | .exn _ => true
  | .resp st body _ => !(st == 200) || (normalizeBody body).isNone

/-- First 200 characters, as Python's `[:200]` slicing on message text. -/
def take200 (s : String) : String := (s.toList.take 200).asString

mutual
/-- Python `str` of a parsed JSON value, for diagnostic messages only (numbers
are shown as `num/den` rather than Python's float repr). -/
def pyStr : Js → String
  | .null => "None"
  | .bool b => if b then "True" else "False"
  | .num q => ((if q < 0 then ['-'] else []) ++ natChars q.num.natAbs).asString ++
      (if q.den == 1 then "" else "/" ++ (natChars q.den).asString)
  | .str s => "\x27" ++ s ++ "\x27"
  | .arr xs => "[" ++ pyStrList xs ++ "]"
  | .obj kvs => "\x7b" ++ pyStrObj kvs ++ "\x7d"

/-- Comma-separated rendering of a JSON array body. -/
def pyStrList : List Js → String
  | [] => ""
  | [x] => pyStr x
  | x :: xs => pyStr x ++ ", " ++ pyStrList xs

/-- Comma-separated rendering of a JSON object body. -/
def pyStrObj : List (String × Js) → String
  | [] => ""
  | [kv] => "\x27" ++ kv.1 ++ "\x27: " ++ pyStr kv.2
  | kv :: kvs => "\x27" ++ kv.1 ++ "\x27: " ++ pyStr kv.2 ++ ", " ++ pyStrObj kvs
end

/-- The `last_error` text recorded for a failing candidate, matching the three
failure branches of the loop. -/
def failMsg (url : String) : HttpResult → String
  | .exn e => url ++ " -> " ++ e
  | .resp st body text =>
    if st = 200 then
      url ++ " -> Unexpected response shape from " ++ url ++ ": " ++ take200 (pyStr body)
    else
      url ++ " -> HTTP " ++ (natChars st).asString ++ " " ++ take200 text

/-- The candidate loop of `fetch_sales`, threading `last_error` (note: a
single overwritten slot, not a per-candidate aggregate). -/
def fetchGo (t : String → HttpResult) : Option String → List String → Except String (List Js)
  | le, [] =>
    .error ("All sales endpoints failed. Last error: " ++
      (match le with | some s => s | none => "None"))
  | _le, url :: rest =>
    match t url with
    | .exn e => fetchGo t (some (url ++ " -> " ++ e)) rest
    | .resp st body text =>
      if st = 200 then
        match normalizeBody body with
        | some l => .ok l
        | none =>
          fetchGo t (some (url ++ " -> Unexpected response shape from " ++ url ++ ": " ++
            take200 (pyStr body))) rest
      else
        fetchGo t (some (url ++ " -> HTTP " ++ (natChars st).asString ++ " " ++ take200 text)) rest

/-- The primary candidate URL. -/
def url1 (company_id location_id start_date end_date : String) : String :=
  "https://api.7shifts.com/v2/company/" ++ company_id ++ "/locations/" ++ location_id ++
    "/sales?start=" ++ start_date ++ "&end=" ++ end_date

/-- The fallback candidate URL. -/
def url2 (_company_id location_id start_date end_date : String) : String :=
  "https://api.7shifts.com/v2/locations/" ++ location_id ++
    "/sales?start=" ++ start_date ++ "&end=" ++ end_date

/-- The source's `fetch_sales`, with the HTTP transport abstracted as a
function from URL to outcome (the bearer token only feeds the headers). -/
def fetch_sales (t : String → HttpResult) (_token company_id location_id
    start_date end_date : String) : Except String (List Js) :=
  fetchGo t none [url1 company_id location_id start_date end_date,
    url2 company_id location_id start_date end_date]

/-- Substring occurrence test (for reasoning about error-message content). -/
def occursIn (pat s : List Char) : Bool :=
  (List.range (s.length + 1)).any (fun i => (s.drop i).take pat.length == pat)

/-! ### The Firestore upsert

Modelled from the spec: the document-store merge-write collaborator
(`doc_ref.set(payload, merge=True)`, `google-cloud-firestore`) is not part of
the repository.  Per §4.6 the write is "a full-document merge at the level of
the named sub-paths, not a per-scalar diff": map keys merge at the top level
and inside `data`, and the named sub-paths are replaced wholesale.
-/

/-- Key-wise merge of two association lists: keys of `o` keep their position,
with values combined through `f` where `n` also binds the key; keys only in
`n` are appended. -/
def mergeMap (o n : List (String × Js)) (f : Js → Js → Js) : List (String × Js) :=
  o.map (fun kv =>
    match lookupL n kv.1 with
    | some nv => (kv.1, f kv.2 nv)
    | none => kv) ++
  n.filter (fun kv => (lookupL o kv.1).isNone)

/-- One-level merge: values from `n` replace same-key values of `o`; other
keys of `o` survive; new keys of `n` are appended. -/
def mergeShallow (o n : List (String × Js)) : List (String × Js) :=
  mergeMap o n (fun _ nv => nv)

/-- Modelled from the spec: `set(..., merge=True)` at the depth the payload
uses — keys merge at the top level; where both sides hold an object (the
`data` block) its keys merge one level down; the named sub-paths replace
wholesale. -/
def setMerge (o n : List (String × Js)) : List (String × Js) :=
  mergeMap o n (fun ov nv =>
    match ov, nv with
    | .obj oo, .obj nn => .obj (mergeShallow oo nn)
    | _, _ => nv)

/-- A week shape as a JSON object, as placed in the upsert payload. -/
def shapeJs (w : WeekShape) : Js :=
  .obj [("mon", .str w.mon), ("tue", .str w.tue), ("wed", .str w.wed),
    ("thu", .str w.thu), ("fri", .str w.fri), ("sat", .str w.sat),
    ("sun", .str w.sun), ("total", .str w.total)]

/-- The `data` block of `main`'s upsert payload. -/
def payloadData (proj actual delta : WeekShape) : List (String × Js) :=
  [("proj_sales", shapeJs proj), ("actual_sales", shapeJs actual),
    ("sales_delta", shapeJs delta)]

/-- `main`'s upsert payload: a `meta` block (timestamp and source tag) and the
`data` block with the three shapes. -/
def payloadDoc (ts : String) (proj actual delta : WeekShape) : List (String × Js) :=
  [("meta", .obj [("updatedAt", .str ts), ("source", .str "7shifts")]),
    ("data", .obj (payloadData proj actual delta))]
/-! ### Statement-level predicates and concrete scenario inputs -/

/-- Whether a string ends in a dot followed by exactly two digits (the
fixed-two-fraction-digit money format). -/
def twoFracB (s : String) : Bool :=
  match s.toList.reverse with
  | b :: a :: p :: _ => isDig b && isDig a && (p == '.')
  | _ => false

/-- A week shape whose 8 slots are given as integer cents
(days 0..6, then `total`). -/
def shapeOfCents (c : Fin 8 → ℤ) : WeekShape :=
  ⟨formatCents (c 0), formatCents (c 1), formatCents (c 2), formatCents (c 3),
    formatCents (c 4), formatCents (c 5), formatCents (c 6), formatCents (c 7)⟩

/-- Monday 2024-03-04, the week anchor of the spec's scenarios. -/
def d20240304 : CalDate := ⟨2024, 3, 4⟩

/-- Scenario A, first record: `{date:"2024-03-04", actual:"100.005"}`. -/
def recA1 : Rec := [("date", .str "2024-03-04"), ("actual", .str "100.005")]

/-- Scenario A, second record: `{date:"2024-03-04", actual:"50"}`. -/
def recA2 : Rec := [("date", .str "2024-03-04"), ("actual", .str "50")]

/-- The day bucket refuting "total = sum of the rounded day slots": two days
each holding the float `0.005` (reachable from records with `actual:"0.005"`). -/
def bucketC2 : DKey → ℚ := fun k =>
  if k = DKey.s "2024-03-04" ∨ k = DKey.s "2024-03-05" then roundFloat (mkRat 1 200) else 0

/-- Record contributing actual `0.001` on the Monday. -/
def recF1 : Rec := [("date", .str "2024-03-04"), ("actual", .str "0.001")]

/-- Record contributing actual `0.003` on the Monday. -/
def recF2 : Rec := [("date", .str "2024-03-04"), ("actual", .str "0.003")]

/-- Record contributing actual `0.041` on the Monday. -/
def recF3 : Rec := [("date", .str "2024-03-04"), ("actual", .str "0.041")]

/-- Distinct-date records for the order-independence witness. -/
def recW1 : Rec := [("date", .str "2024-03-04"), ("actual", .num 10)]

/-- Second distinct-date record for the order-independence witness. -/
def recW2 : Rec := [("date", .str "2024-03-05"), ("actual", .num 20)]

/-- Scenario B fallback body: `{"sales":[{"day":"2024-03-05","projected_total":200}]}`. -/
def bodyB : Js := .obj [("sales", .arr [.obj [("day", .str "2024-03-05"), ("projected_total", .num 200)]])]

/-- Scenario B transport: primary endpoint answers 404, fallback answers 200
with `bodyB`. -/
def tScenB : String → HttpResult := fun u =>
  if u = url1 "C1" "L1" "2024-03-04" "2024-03-10" then .resp 404 .null "Not Found"
  else .resp 200 bodyB ""

/-- Scenario C transport: both endpoints raise distinct transport errors. -/
def tScenC : String → HttpResult := fun u =>
  if u = url1 "C1" "L1" "2024-03-04" "2024-03-10" then .exn "boom1" else .exn "boom2"

/-- Scenario D actual week: `{mon:"120.00", total:"120.00"}`, other days zero,
as integer cents. -/
def centsD1 : Fin 8 → ℤ := fun i => if i = 0 then 12000 else if i = 7 then 12000 else 0

/-- Scenario D projected week: `{mon:"100.00", total:"100.00"}`, other days
zero, as integer cents. -/
def centsD2 : Fin 8 → ℤ := fun i => if i = 0 then 10000 else if i = 7 then 10000 else 0

/-- A pre-existing stored document with an unrelated `purchases` field both at
the top level and inside `data`. -/
def oldDoc : List (String × Js) :=
  [("purchases", .obj [("week", .num 7)]),
    ("data", .obj [("purchases", .num 3), ("proj_sales", .str "stale")]),
    ("settings", .str "keep")]

/-- A record whose first actual alias is present but non-coercible and whose
second alias is numeric. -/
def recSkip : Rec := [("actual", .str "abc"), ("actual_sales", .num 5)]

/-- A record binding no alias at all. -/
def recMiss : Rec := [("other", .num 1)]

/-- The 7 weekday slots of a shape, indexed Monday-first. -/
def slotOf (w : WeekShape) : Fin 7 → String
  | 0 => w.mon
  | 1 => w.tue
  | 2 => w.wed
  | 3 => w.thu
  | 4 => w.fri
  | 5 => w.sat
  | 6 => w.sun

/-- Witness bucket: `1.25` on the Monday, nothing else. -/
def bucketW2 : DKey → ℚ := fun k => if k = DKey.s "2024-03-04" then mkRat 5 4 else 0

/-- Witness cents: 125 on Monday, 0 elsewhere. -/
def centsW2 : Fin 7 → ℤ := fun i => if i = 0 then 125 else 0

/-- The exact error message produced when both candidates raise `boom1` and
`boom2`. -/
def msgC3 : String :=
  "All sales endpoints failed. Last error: https://api.7shifts.com/v2/locations/L1/sales?start=2024-03-04&end=2024-03-10 -> boom2"

/-! ## Bridge lemmas and digit-string machinery -/

theorem qadd_eq (a b : ℚ) : qadd a b = a + b := by
  have ha : (a.den : ℤ) ≠ 0 := Int.natCast_ne_zero.mpr a.den_nz
  have hb : (b.den : ℤ) ≠ 0 := Int.natCast_ne_zero.mpr b.den_nz
  rw [qadd, Rat.mkRat_eq_divInt]
  push_cast
  rw [← Rat.divInt_add_divInt _ _ ha hb, Rat.num_divInt_den, Rat.num_divInt_den]

theorem qneg_eq (a : ℚ) : qneg a = -a := by
  rw [qneg, Rat.mkRat_eq_divInt, ← Rat.neg_divInt, Rat.num_divInt_den]

theorem qsub_eq (a b : ℚ) : qsub a b = a - b := by
  rw [qsub, qadd_eq, qneg_eq, sub_eq_add_neg]

theorem qmul_eq (a b : ℚ) : qmul a b = a * b := by
  have ha : (a.den : ℤ) ≠ 0 := Int.natCast_ne_zero.mpr a.den_nz
  have hb : (b.den : ℤ) ≠ 0 := Int.natCast_ne_zero.mpr b.den_nz
  rw [qmul, Rat.mkRat_eq_divInt]
  push_cast
  rw [← Rat.divInt_mul_divInt _ _ ha hb, Rat.num_divInt_den, Rat.num_divInt_den]

theorem qinv_eq (a : ℚ) : qinv a = a⁻¹ := by
  rw [qinv]
  split_ifs with h
  · rw [Rat.mkRat_eq_divInt, show ((a.num.natAbs : ℤ)) = -a.num by omega,
      Rat.neg_divInt_neg]
    conv_rhs => rw [← Rat.num_divInt_den a, Rat.inv_divInt']
  · rw [Rat.mkRat_eq_divInt, show ((a.num.natAbs : ℤ)) = a.num by omega]
    conv_rhs => rw [← Rat.num_divInt_den a, Rat.inv_divInt']

theorem qdiv_eq (a b : ℚ) : qdiv a b = a / b := by
  rw [qdiv, qmul_eq, qinv_eq, div_eq_mul_inv]

theorem intQ_eq (n : ℤ) : intQ n = (n : ℚ) := by
  rw [intQ, Rat.mkRat_one]

theorem centsQ_eq (c : ℤ) : centsQ c = (c : ℚ) / 100 := by
  rw [centsQ, Rat.mkRat_eq_divInt, Rat.divInt_eq_div]
  norm_num

theorem mkRat_half : mkRat 1 2 = (1 : ℚ) / 2 := by
  rw [Rat.mkRat_eq_divInt, Rat.divInt_eq_div]
  norm_num

theorem natCharsAux_irrel (n : ℕ) : ∀ f g, n < f → n < g → natCharsAux f n = natCharsAux g n := by
  induction n using Nat.strong_induction_on with
  | _ n ih =>
    intro f g hf hg
    cases f with
    | zero => omega
    | succ f =>
      cases g with
      | zero => omega
      | succ g =>
        simp only [natCharsAux]
        by_cases h : n < 10
        · simp [h]
        · have hd : n / 10 < n := Nat.div_lt_self (by omega) (by omega)
          simp only [if_neg h]
          rw [ih (n / 10) hd f g (by omega) (by omega)]

theorem natChars_eq_lt {n : ℕ} (h : n < 10) : natChars n = [digitChar n] := by
  unfold natChars
  simp [natCharsAux, h]

theorem natChars_eq_ge {n : ℕ} (h : ¬ n < 10) : natChars n = natChars (n / 10) ++ [digitChar (n % 10)] := by
  have hd : n / 10 < n := Nat.div_lt_self (by omega) (by omega)
  unfold natChars
  conv_lhs => rw [natCharsAux]
  simp only [if_neg h]
  rw [natCharsAux_irrel (n / 10) n (n / 10 + 1) (by omega) (by omega)]

theorem digVal_digitChar : ∀ d < 10, digVal (digitChar d) = d := by decide

theorem isDig_digitChar : ∀ d < 10, isDig (digitChar d) = true := by decide

theorem natChars_all_isDig (n : ℕ) : ∀ c ∈ natChars n, isDig c = true := by
  induction n using Nat.strong_induction_on with
  | _ n ih =>
    by_cases h : n < 10
    · rw [natChars_eq_lt h]
      intro c hc
      rw [List.mem_singleton] at hc
      subst hc
      exact isDig_digitChar n h
    · rw [natChars_eq_ge h]
      intro c hc
      rw [List.mem_append] at hc
      rcases hc with hc | hc
      · exact ih (n / 10) (Nat.div_lt_self (by omega) (by omega)) c hc
      · rw [List.mem_singleton] at hc
        subst hc
        exact isDig_digitChar (n % 10) (Nat.mod_lt _ (by omega))

theorem natChars_ne_nil (n : ℕ) : natChars n ≠ [] := by
  by_cases h : n < 10
  · rw [natChars_eq_lt h]; simp
  · rw [natChars_eq_ge h]; simp

theorem digitsVal_append_one (l : List Char) (c : Char) :
    digitsVal (l ++ [c]) = digitsVal l * 10 + digVal c := by
  simp [digitsVal, List.foldl_append]

theorem digitsVal_natChars (n : ℕ) : digitsVal (natChars n) = n := by
  induction n using Nat.strong_induction_on with
  | _ n ih =>
    by_cases h : n < 10
    · rw [natChars_eq_lt h]
      simp [digitsVal, digVal_digitChar n h]
    · rw [natChars_eq_ge h, digitsVal_append_one,
        ih (n / 10) (Nat.div_lt_self (by omega) (by omega)),
        digVal_digitChar (n % 10) (Nat.mod_lt _ (by omega))]
      omega
theorem natChars_length_one {n : ℕ} (h : n < 10) : (natChars n).length = 1 := by
  rw [natChars_eq_lt h]; rfl

theorem digitsVal_cons_zero (l : List Char) : digitsVal ('0' :: l) = digitsVal l := by
  have h0 : digVal '0' = 0 := by decide
  simp only [digitsVal, List.foldl_cons, Nat.zero_mul, h0, Nat.add_zero, Nat.zero_add]

theorem pad2_length (k : ℕ) (hk : k < 100) : (pad2 k).length = 2 := by
  unfold pad2
  by_cases h : k < 10
  · rw [if_pos h, List.length_cons, natChars_length_one h]
  · rw [if_neg h, natChars_eq_ge h, List.length_append, natChars_length_one (by omega)]
    rfl

theorem pad2_val (k : ℕ) : digitsVal (pad2 k) = k := by
  unfold pad2
  by_cases h : k < 10
  · rw [if_pos h, digitsVal_cons_zero, digitsVal_natChars]
  · rw [if_neg h, digitsVal_natChars]

theorem pad2_all_isDig (k : ℕ) : ∀ c ∈ pad2 k, isDig c = true := by
  unfold pad2
  by_cases h : k < 10
  · rw [if_pos h]
    intro c hc
    rcases List.mem_cons.mp hc with hc | hc
    · subst hc; decide
    · exact natChars_all_isDig k c hc
  · rw [if_neg h]
    exact natChars_all_isDig k
theorem isDig_bne {c : Char} (x : Char) (h : isDig c = true) (hx : isDig x = false) :
    (c != x) = true := by
  rw [bne_iff_ne]
  intro hc
  subst hc
  rw [h] at hx
  exact Bool.noConfusion hx

theorem isDig_ne {c : Char} (x : Char) (h : isDig c = true) (hx : isDig x = false) :
    c ≠ x := by
  intro hc
  subst hc
  rw [h] at hx
  exact Bool.noConfusion hx

theorem takeWhile_all_eq (p : Char → Bool) (l : List Char) (h : ∀ c ∈ l, p c = true) :
    l.takeWhile p = l := by
  induction l with
  | nil => rfl
  | cons c t ih =>
    rw [List.takeWhile_cons, h c (by simp), if_pos rfl, ih (fun x hx => h x (by simp [hx]))]

theorem takeWhile_append_stop (p : Char → Bool) (A B : List Char) (x : Char)
    (hA : ∀ c ∈ A, p c = true) (hx : p x = false) :
    (A ++ x :: B).takeWhile p = A := by
  induction A with
  | nil => simp [List.takeWhile_cons, hx]
  | cons c t ih =>
    rw [List.cons_append, List.takeWhile_cons, hA c (by simp), if_pos rfl,
      ih (fun y hy => hA y (by simp [hy]))]
theorem parseMant_money (a k : ℕ) (hk : k < 100) :
    parseMant (natChars a ++ '.' :: pad2 k) = some ((a : ℚ) + (k : ℚ) / 100) := by
  have hA : ∀ c ∈ natChars a, (c != '.') = true :=
    fun c hc => isDig_bne '.' (natChars_all_isDig a c hc) (by decide)
  have htw : (natChars a ++ '.' :: pad2 k).takeWhile (fun c => c != '.') = natChars a :=
    takeWhile_append_stop _ _ _ _ hA (by decide)
  unfold parseMant
  rw [htw]
  dsimp only
  rw [List.drop_left]
  have hne : (natChars a ++ pad2 k).isEmpty = false := by
    rcases List.exists_cons_of_ne_nil (natChars_ne_nil a) with ⟨c, t, hct⟩
    rw [hct]
    rfl
  have hall : (natChars a ++ pad2 k).all isDig = true := by
    rw [List.all_eq_true]
    intro c hc
    rcases List.mem_append.mp hc with hc | hc
    · exact natChars_all_isDig a c hc
    · exact pad2_all_isDig k c hc
  dsimp only
  rw [if_pos (by rw [hne, hall]; rfl)]
  rw [digitsVal_natChars, pad2_val, pad2_length k hk]
  rw [qadd_eq, qdiv_eq]
  norm_num [pow10n]

theorem splitExpChars_none (l : List Char) (h : ∀ c ∈ l, (c != 'e' && c != 'E') = true) :
    splitExpChars l = (l, none) := by
  unfold splitExpChars
  rw [takeWhile_all_eq _ _ h]
  dsimp only
  rw [List.drop_length]

theorem parseSign_digit (c : Char) (t : List Char) (h : isDig c = true) :
    parseSign (c :: t) = (false, c :: t) := by
  simp only [parseSign]
  rw [if_neg (isDig_ne '-' h (by decide)), if_neg (isDig_ne '+' h (by decide))]

theorem parseSign_neg (t : List Char) : parseSign ('-' :: t) = (true, t) := rfl
theorem toList_asString (l : List Char) : (l.asString).toList = l := rfl

theorem natCast_div_add_mod (n : ℕ) :
    ((n / 100 : ℕ) : ℚ) + ((n % 100 : ℕ) : ℚ) / 100 = (n : ℚ) / 100 := by
  have key : (100 : ℚ) * ((n / 100 : ℕ) : ℚ) + ((n % 100 : ℕ) : ℚ) = (n : ℚ) := by
    exact_mod_cast congrArg (Nat.cast (R := ℚ)) (Nat.div_add_mod n 100)
  field_simp
  linarith

theorem notE_of_mant (n : ℕ) :
    ∀ c ∈ natChars (n / 100) ++ '.' :: pad2 (n % 100), (c != 'e' && c != 'E') = true := by
  intro c hc
  have hd : isDig c = true ∨ c = '.' := by
    rcases List.mem_append.mp hc with hc | hc
    · exact Or.inl (natChars_all_isDig _ c hc)
    · rcases List.mem_cons.mp hc with hc | hc
      · exact Or.inr hc
      · exact Or.inl (pad2_all_isDig _ c hc)
  rcases hd with hd | hd
  · rw [isDig_bne 'e' hd (by decide), isDig_bne 'E' hd (by decide)]
    rfl
  · subst hd
    decide

theorem parseDecCore_centsRender (neg : Bool) (n : ℕ) :
    parseDecCore (centsRender neg n) =
      some (if neg then -((n : ℚ) / 100) else (n : ℚ) / 100) := by
  have hm : parseMant (natChars (n / 100) ++ '.' :: pad2 (n % 100)) =
      some (((n / 100 : ℕ) : ℚ) + ((n % 100 : ℕ) : ℚ) / 100) :=
    parseMant_money (n / 100) (n % 100) (Nat.mod_lt _ (by omega))
  rcases List.exists_cons_of_ne_nil (natChars_ne_nil (n / 100)) with ⟨c, t, hct⟩
  have hcd : isDig c = true := by
    apply natChars_all_isDig (n / 100)
    rw [hct]
    simp
  cases neg with
  | false =>
    show parseDecCore (natChars (n / 100) ++ '.' :: pad2 (n % 100)) = _
    unfold parseDecCore
    rw [hct, List.cons_append, parseSign_digit c _ hcd, ← List.cons_append, ← hct]
    dsimp only
    rw [splitExpChars_none _ (notE_of_mant n)]
    dsimp only
    rw [hm]
    dsimp only
    rw [if_neg (by simp), natCast_div_add_mod]
    rfl
  | true =>
    show parseDecCore ('-' :: (natChars (n / 100) ++ '.' :: pad2 (n % 100))) = _
    unfold parseDecCore
    rw [parseSign_neg]
    dsimp only
    rw [splitExpChars_none _ (notE_of_mant n)]
    dsimp only
    rw [hm]
    dsimp only
    rw [if_pos rfl, qneg_eq, natCast_div_add_mod]
    rfl
theorem natAbs_cast_of_neg {c : ℤ} (h : c < 0) : ((c.natAbs : ℕ) : ℚ) = -(c : ℚ) := by
  rw [Int.cast_natAbs]
  exact_mod_cast congrArg (Int.cast : ℤ → ℚ) (abs_of_neg h)

theorem natAbs_cast_of_nonneg {c : ℤ} (h : ¬ c < 0) : ((c.natAbs : ℕ) : ℚ) = (c : ℚ) := by
  rw [Int.cast_natAbs]
  exact_mod_cast congrArg (Int.cast : ℤ → ℚ) (abs_of_nonneg (not_lt.mp h))

theorem parse_formatCents (c : ℤ) : parseDecLit (formatCents c) = some ((c : ℚ) / 100) := by
  unfold formatCents parseDecLit
  rw [toList_asString, parseDecCore_centsRender]
  by_cases h : c < 0
  · rw [if_pos (by rw [decide_eq_true h]), natAbs_cast_of_neg h, neg_div, neg_neg]
  · rw [if_neg (by rw [decide_eq_false h]; exact Bool.noConfusion), natAbs_cast_of_nonneg h]

theorem twoFracB_centsRender (neg : Bool) (n : ℕ) :
    twoFracB ((centsRender neg n).asString) = true := by
  unfold twoFracB
  rw [toList_asString]
  rcases (List.length_eq_two).mp (pad2_length (n % 100) (Nat.mod_lt _ (by omega))) with ⟨d1, d2, hd⟩
  have h1 : isDig d1 = true := pad2_all_isDig _ d1 (by rw [hd]; simp)
  have h2 : isDig d2 = true := pad2_all_isDig _ d2 (by rw [hd]; simp)
  unfold centsRender
  rw [hd]
  simp only [List.reverse_append, List.reverse_cons, List.reverse_nil, List.nil_append,
    List.append_assoc, List.cons_append, List.nil_append]
  rw [h1, h2]
  rfl
theorem rnE_cases (x : ℚ) : rnE x = ratFloor x ∨ rnE x = ratFloor x + 1 := by
  unfold rnE
  dsimp only
  split_ifs <;> simp

theorem ratFloor_nonneg {x : ℚ} (h : 0 ≤ x) : 0 ≤ ratFloor x := by
  unfold ratFloor
  have hn : 0 ≤ x.num := Rat.num_nonneg.mpr h
  have hd : (0 : ℤ) < (x.den : ℤ) := by exact_mod_cast x.pos
  exact Int.ediv_nonneg hn (le_of_lt hd)

theorem ratFloor_neg {x : ℚ} (h : x < 0) : ratFloor x < 0 := by
  unfold ratFloor
  have hn : x.num < 0 := Rat.num_neg.mpr h
  have hd : (0 : ℤ) < (x.den : ℤ) := by exact_mod_cast x.pos
  have h1 := Int.ediv_add_emod x.num (x.den : ℤ)
  have h2 := Int.emod_nonneg x.num (ne_of_gt hd)
  nlinarith [h1, h2]

theorem rnE_nonneg {x : ℚ} (h : 0 ≤ x) : 0 ≤ rnE x := by
  rcases rnE_cases x with hc | hc <;> rw [hc] <;> have := ratFloor_nonneg h <;> omega

theorem rnE_nonpos {x : ℚ} (h : x < 0) : rnE x ≤ 0 := by
  rcases rnE_cases x with hc | hc <;> rw [hc] <;> have := ratFloor_neg h <;> omega

theorem ratFloor_intCast (c : ℤ) : ratFloor ((c : ℤ) : ℚ) = c := by
  unfold ratFloor
  rw [Rat.intCast_num, Rat.intCast_den]
  norm_num

theorem rnE_intCast (c : ℤ) : rnE ((c : ℤ) : ℚ) = c := by
  unfold rnE
  dsimp only
  rw [ratFloor_intCast, qsub_eq, intQ_eq, sub_self, mkRat_half]
  rw [if_pos (by norm_num)]
theorem natAbs_cast_of_nonpos {c : ℤ} (h : c ≤ 0) : ((c.natAbs : ℕ) : ℚ) = -(c : ℚ) := by
  rw [Int.cast_natAbs]
  exact_mod_cast congrArg (Int.cast : ℤ → ℚ) (abs_of_nonpos h)

theorem natAbs_cast_of_nonneg2 {c : ℤ} (h : 0 ≤ c) : ((c.natAbs : ℕ) : ℚ) = (c : ℚ) := by
  rw [Int.cast_natAbs]
  exact_mod_cast congrArg (Int.cast : ℤ → ℚ) (abs_of_nonneg h)

theorem centsQ_neg_iff (c : ℤ) : centsQ c < 0 ↔ c < 0 := by
  rw [centsQ_eq, div_lt_iff₀ (by norm_num : (0:ℚ) < 100)]
  norm_num

theorem moneyDec_centsQ (c : ℤ) (h : digitCount c.natAbs ≤ 28) :
    moneyDec (centsQ c) = formatCents c := by
  unfold moneyDec formatCents
  dsimp only
  have hc : rnE (qmul (centsQ c) 100) = c := by
    rw [qmul_eq, centsQ_eq, div_mul_cancel₀ _ (by norm_num : (100:ℚ) ≠ 0), rnE_intCast]
  rw [hc, if_pos h]
  congr 2
  exact decide_eq_decide.mpr (centsQ_neg_iff c)

theorem parse_moneyDec (d : ℚ) (h : digitCount (rnE (qmul d 100)).natAbs ≤ 28) :
    parseDecLit (moneyDec d) = some (((rnE (qmul d 100) : ℤ) : ℚ) / 100) ∧
      twoFracB (moneyDec d) = true := by
  unfold moneyDec
  dsimp only
  rw [if_pos h]
  refine ⟨?_, twoFracB_centsRender _ _⟩
  unfold parseDecLit
  rw [toList_asString, parseDecCore_centsRender]
  by_cases hd : d < 0
  · rw [if_pos (by rw [decide_eq_true hd])]
    have hq : qmul d 100 < 0 := by
      rw [qmul_eq]
      exact mul_neg_of_neg_of_pos hd (by norm_num)
    rw [natAbs_cast_of_nonpos (rnE_nonpos hq), neg_div, neg_neg]
  · rw [if_neg (by rw [decide_eq_false hd]; exact Bool.noConfusion)]
    have hq : 0 ≤ qmul d 100 := by
      rw [qmul_eq]
      exact mul_nonneg (not_lt.mp hd) (by norm_num)
    rw [natAbs_cast_of_nonneg2 (rnE_nonneg hq)]

/-! ## Fetch-loop and merge machinery -/

theorem fetchGo_fail_cons (t : String → HttpResult) (le : Option String) (u : String)
    (rest : List String) (h : failsB (t u) = true) :
    fetchGo t le (u :: rest) = fetchGo t (some (failMsg u (t u))) rest := by
  cases ht : t u with
  | exn e => rw [fetchGo, ht]; rfl
  | resp st body text =>
    rw [ht, failsB] at h
    rw [fetchGo, ht]
    dsimp only
    by_cases h200 : st = 200
    · subst h200
      simp only [beq_self_eq_true, Bool.not_true, Bool.false_or] at h
      rw [if_pos rfl, Option.isNone_iff_eq_none.mp h, failMsg, if_pos rfl]
    · rw [if_neg h200, failMsg, if_neg h200]

theorem lookupL_append_of_none {a : List (String × Js)} {k : String}
    (h : lookupL a k = none) (b : List (String × Js)) :
    lookupL (a ++ b) k = lookupL b k := by
  induction a with
  | nil => rfl
  | cons kv t ih =>
    rw [lookupL] at h
    rw [List.cons_append, lookupL]
    by_cases hk : kv.1 = k
    · rw [if_pos hk] at h; exact Option.noConfusion h
    · rw [if_neg hk] at h ⊢
      exact ih h

theorem lookupL_append_of_some {a : List (String × Js)} {k : String} {v : Js}
    (h : lookupL a k = some v) (b : List (String × Js)) :
    lookupL (a ++ b) k = some v := by
  induction a with
  | nil => exact Option.noConfusion h
  | cons kv t ih =>
    rw [lookupL] at h
    rw [List.cons_append, lookupL]
    by_cases hk : kv.1 = k
    · rw [if_pos hk] at h ⊢; exact h
    · rw [if_neg hk] at h ⊢
      exact ih h

theorem lookupL_filter_none {n : List (String × Js)} {k : String}
    (h : lookupL n k = none) (p : String × Js → Bool) :
    lookupL (n.filter p) k = none := by
  induction n with
  | nil => rfl
  | cons kv t ih =>
    rw [lookupL] at h
    by_cases hk : kv.1 = k
    · rw [if_pos hk] at h; exact Option.noConfusion h
    · rw [if_neg hk] at h
      rw [List.filter_cons]
      by_cases hp : p kv = true
      · rw [if_pos hp, lookupL, if_neg hk]
        exact ih h
      · rw [if_neg hp]
        exact ih h

theorem lookupL_mergeArm_of_none {o : List (String × Js)} {n : List (String × Js)} {k : String}
    (f : Js → Js → Js) (hk : lookupL n k = none) :
    lookupL (o.map (fun kv =>
      match lookupL n kv.1 with
      | some nv => (kv.1, f kv.2 nv)
      | none => kv)) k = lookupL o k := by
  induction o with
  | nil => rfl
  | cons kv t ih =>
    rw [List.map_cons, lookupL, lookupL]
    by_cases hkk : kv.1 = k
    · subst hkk
      rw [hk]
      rw [if_pos rfl, if_pos rfl]
    · cases hn : lookupL n kv.1 with
      | none => rw [if_neg hkk, if_neg hkk]; exact ih
      | some nv => rw [if_neg hkk, if_neg hkk]; exact ih

theorem lookupL_mergeArm_of_some {o n : List (String × Js)} {k : String} {v nv : Js}
    (f : Js → Js → Js) (ho : lookupL o k = some v) (hn : lookupL n k = some nv) :
    lookupL (o.map (fun kv =>
      match lookupL n kv.1 with
      | some nv => (kv.1, f kv.2 nv)
      | none => kv)) k = some (f v nv) := by
  induction o with
  | nil => exact Option.noConfusion ho
  | cons kv t ih =>
    rw [lookupL] at ho
    rw [List.map_cons, lookupL]
    by_cases hkk : kv.1 = k
    · subst hkk
      rw [if_pos rfl] at ho
      rw [hn]
      rw [if_pos rfl]
      rw [Option.some_inj.mp ho]
    · rw [if_neg hkk] at ho
      cases hn2 : lookupL n kv.1 with
      | none => rw [if_neg hkk]; exact ih ho
      | some nv2 => rw [if_neg hkk]; exact ih ho

theorem mergeMap_lookup_frame {o n : List (String × Js)} {k : String}
    (f : Js → Js → Js) (hk : lookupL n k = none) :
    lookupL (mergeMap o n f) k = lookupL o k := by
  unfold mergeMap
  cases ho : lookupL o k with
  | none =>
    rw [lookupL_append_of_none (by rw [lookupL_mergeArm_of_none f hk]; exact ho) _]
    exact lookupL_filter_none hk _
  | some v =>
    exact lookupL_append_of_some (by rw [lookupL_mergeArm_of_none f hk]; exact ho) _

theorem mergeMap_lookup_both {o n : List (String × Js)} {k : String} {v nv : Js}
    (f : Js → Js → Js) (ho : lookupL o k = some v) (hn : lookupL n k = some nv) :
    lookupL (mergeMap o n f) k = some (f v nv) := by
  unfold mergeMap
  exact lookupL_append_of_some (lookupL_mergeArm_of_some f ho hn) _
/-! ## Aggregation order machinery -/

theorem aggStep_none {r : Rec} (h : resolveDate r = none) (m : (DKey → ℚ) × (DKey → ℚ)) :
    aggStep m r = m := by
  unfold aggStep
  rw [h]

theorem upd_comm {k1 k2 : DKey} (h : k1 ≠ k2) (m : DKey → ℚ) (v1 v2 : ℚ) :
    upd (upd m k1 v1) k2 v2 = upd (upd m k2 v2) k1 v1 := by
  funext k
  by_cases h2 : k = k2 <;> by_cases h1 : k = k1
  · subst h1; exact absurd h2 h
  · subst h2; simp [upd, h1, Ne.symm h]
  · subst h1; simp [upd, h2, h]
  · simp [upd, h1, h2]

theorem aggStep_comm (x y : Rec)
    (hxy : resolveDate x = none ∨ resolveDate y = none ∨ resolveDate x ≠ resolveDate y)
    (z : (DKey → ℚ) × (DKey → ℚ)) :
    aggStep (aggStep z x) y = aggStep (aggStep z y) x := by
  rcases hx : resolveDate x with _ | dx
  · rw [aggStep_none hx, aggStep_none hx]
  rcases hy : resolveDate y with _ | dy
  · rw [aggStep_none hy, aggStep_none hy]
  have hne : dx ≠ dy := by
    rcases hxy with h | h | h
    · rw [hx] at h; exact absurd h (by simp)
    · rw [hy] at h; exact absurd h (by simp)
    · intro he; rw [hx, hy, he] at h; exact h rfl
  unfold aggStep
  rw [hx, hy]
  dsimp only
  exact Prod.ext (upd_comm hne _ _ _) (upd_comm hne _ _ _)

theorem aggregate_perm (rows rows' : List Rec) (hp : rows.Perm rows')
    (hd : rows.Pairwise (fun r s =>
      resolveDate r = none ∨ resolveDate s = none ∨ resolveDate r ≠ resolveDate s)) :
    aggregate rows = aggregate rows' := by
  unfold aggregate
  refine hp.foldl_eq' ?_ _
  intro x hx y hy z
  by_cases hxy : x = y
  · subst hxy; rfl
  · refine aggStep_comm x y ?_ z
    refine hd.forall ?_ hx hy hxy
    intro a b hab
    rcases hab with h | h | h
    · exact Or.inr (Or.inl h)
    · exact Or.inl h
    · exact Or.inr (Or.inr (Ne.symm h))

theorem build_week_shape_apply (monday : CalDate) (f : DKey → ℚ) (v0 v1 v2 v3 v4 v5 v6 : ℚ)
    (h0 : f (DKey.s (to_iso (addDays monday 0))) = v0)
    (h1 : f (DKey.s (to_iso (addDays monday 1))) = v1)
    (h2 : f (DKey.s (to_iso (addDays monday 2))) = v2)
    (h3 : f (DKey.s (to_iso (addDays monday 3))) = v3)
    (h4 : f (DKey.s (to_iso (addDays monday 4))) = v4)
    (h5 : f (DKey.s (to_iso (addDays monday 5))) = v5)
    (h6 : f (DKey.s (to_iso (addDays monday 6))) = v6) :
    build_week_shape monday f =
      ⟨moneyDec (shortestDec v0), moneyDec (shortestDec v1), moneyDec (shortestDec v2),
        moneyDec (shortestDec v3), moneyDec (shortestDec v4), moneyDec (shortestDec v5),
        moneyDec (shortestDec v6),
        moneyDec (qadd (qadd (qadd (qadd (qadd (qadd (shortestDec v0) (shortestDec v1))
          (shortestDec v2)) (shortestDec v3)) (shortestDec v4)) (shortestDec v5))
          (shortestDec v6))⟩ := by
  unfold build_week_shape dayVal
  rw [h0, h1, h2, h3, h4, h5, h6]

/-! ## Claim theorems -/

set_option maxRecDepth 16000
set_option maxHeartbeats 2000000

theorem pick_cons_miss (r : Rec) (k : String) (ks : List String) (d : ℚ)
    (h : aliasMissB r k = true) : pick r (k :: ks) d = pick r ks d := by
  unfold aliasMissB at h
  conv_lhs => rw [pick]
  cases hl : lookupL r k with
  | none => rfl
  | some v =>
    rw [hl] at h
    cases v with
    | null => rfl
    | bool b =>
      dsimp only at h ⊢
      rw [Option.isNone_iff_eq_none.mp h]
    | num q =>
      dsimp only at h ⊢
      rw [Option.isNone_iff_eq_none.mp h]
    | str s =>
      dsimp only at h ⊢
      rw [Option.isNone_iff_eq_none.mp h]
    | arr xs =>
      dsimp only at h ⊢
      rw [Option.isNone_iff_eq_none.mp h]
    | obj kvs =>
      dsimp only at h ⊢
      rw [Option.isNone_iff_eq_none.mp h]
theorem pick_all_miss (r : Rec) (keys : List String) (d : ℚ)
    (h : ∀ k ∈ keys, aliasMissB r k = true) : pick r keys d = roundFloat d := by
  induction keys with
  | nil => rfl
  | cons k ks ih =>
    rw [pick_cons_miss r k ks d (h k (by simp))]
    exact ih (fun x hx => h x (by simp [hx]))

/-- Claim C10: an alias that is present but bound to null or to a value that does
not coerce to a number is skipped and later aliases are still consulted;
`pick` falls back to the (float-coerced) default exactly when every alias
misses.  (`pick` is a total function, so no record contents can raise.) -/
theorem c10_pick_skip :
    (∀ (r : Rec) (k : String) (ks : List String) (d : ℚ),
      aliasMissB r k = true → pick r (k :: ks) d = pick r ks d) ∧
    (∀ (r : Rec) (keys : List String) (d : ℚ),
      (∀ k ∈ keys, aliasMissB r k = true) → pick r keys d = roundFloat d) :=
  ⟨pick_cons_miss, pick_all_miss⟩

/-- Witness for `c10_pick_skip`: a record whose first actual alias is a
non-numeric string falls through to the second alias, and a record binding no
alias yields the default. -/
theorem c10_pick_skip_witness :
    aliasMissB recSkip "actual" = true ∧
    pick recSkip ["actual", "actual_sales"] 0 = pick recSkip ["actual_sales"] 0 ∧
    (∀ k ∈ actualAliases, aliasMissB recMiss k = true) ∧
    pick recMiss actualAliases 0 = roundFloat 0 :=
  ⟨by decide, c10_pick_skip.1 recSkip "actual" ["actual_sales"] 0 (by decide),
    by decide, c10_pick_skip.2 recMiss actualAliases 0 (by decide)⟩

/-- Claim C4: `pick` implements declarative first-match alias coalescing — it
returns the value of the first alias present with a non-null, numerically
coercible value, ignoring all later aliases, and the caller-supplied default
when no alias matches or coerces. -/
theorem c4_pick_first_match (r : Rec) (keys : List String) (d : ℚ) :
    pick r keys d = coalesceSpec r keys d := by
  induction keys with
  | nil => rfl
  | cons k ks ih =>
    conv_lhs => rw [pick]
    conv_rhs => rw [coalesceSpec]
    rw [List.filterMap_cons]
    cases hl : lookupL r k with
    | none =>
      dsimp only
      exact ih
    | some v =>
      cases v with
      | null =>
        dsimp only
        exact ih
      | bool b =>
        dsimp only
        rw [show coerce (Js.bool b) = some (if b then (1 : ℚ) else 0) from rfl]
        rfl
      | num q =>
        dsimp only
        rw [show coerce (Js.num q) = some (roundFloat q) from rfl]
        rfl
      | str s =>
        dsimp only
        cases hc : coerce (.str s) with
        | none => exact ih
        | some f => rfl
      | arr xs =>
        dsimp only
        exact ih
      | obj kvs =>
        dsimp only
        exact ih
/-- Claim C1, counterexample: on Scenario A's records the actual week's `mon` slot is
not `"150.01"` — `Decimal.quantize` under the default context rounds half to
even, so the accumulated 150.005 rounds down. -/
theorem c1_scenarioA_counterexample :
    (aggregateShapes d20240304 [recA1, recA2]).2.mon ≠ "150.01" := by
  have h : (aggregate [recA1, recA2]).1 (DKey.s (to_iso (addDays d20240304 0))) =
      mkRat 1319457933796311 8796093022208 := by decide
  show (build_week_shape d20240304 (aggregate [recA1, recA2]).1).mon ≠ _
  unfold build_week_shape dayVal
  rw [h]
  decide

/-- Claim C1, amended: Scenario A's records produce an actual week with `mon` =
`"150.00"` (ROUND_HALF_EVEN sends 150.005 to 150.00), every other day slot
`"0.00"`, and `total` = `"150.00"`. -/
theorem c1_scenarioA_banker_rounding :
    (aggregateShapes d20240304 [recA1, recA2]).2 =
      ⟨"150.00", "0.00", "0.00", "0.00", "0.00", "0.00", "0.00", "150.00"⟩ := by
  show build_week_shape d20240304 (aggregate [recA1, recA2]).1 = _
  rw [build_week_shape_apply d20240304 _ (mkRat 1319457933796311 8796093022208) 0 0 0 0 0 0
    (by decide) (by decide) (by decide) (by decide) (by decide) (by decide) (by decide)]
  decide

/-- Claim C2, counterexample: a bucket holding the float `0.005` on two days yields
all-zero day slots (each parses to the decimal 0) but `total` = `"0.01"`
(parsing to 1/100), so `total` differs from the decimal sum of the 7 rounded
day slots. -/
theorem c2_total_slot_sum_counterexample :
    (build_week_shape d20240304 bucketC2).mon = "0.00" ∧
    (build_week_shape d20240304 bucketC2).tue = "0.00" ∧
    (build_week_shape d20240304 bucketC2).wed = "0.00" ∧
    (build_week_shape d20240304 bucketC2).thu = "0.00" ∧
    (build_week_shape d20240304 bucketC2).fri = "0.00" ∧
    (build_week_shape d20240304 bucketC2).sat = "0.00" ∧
    (build_week_shape d20240304 bucketC2).sun = "0.00" ∧
    (build_week_shape d20240304 bucketC2).total = "0.01" ∧
    parseDecLit "0.00" = some 0 ∧ parseDecLit "0.01" = some (centsQ 1) ∧
    centsQ 1 ≠ 0 + 0 + 0 + 0 + 0 + 0 + 0 := by
  rw [build_week_shape_apply d20240304 bucketC2 (roundFloat (mkRat 1 200))
    (roundFloat (mkRat 1 200)) 0 0 0 0 0
    (by decide) (by decide) (by decide) (by decide) (by decide) (by decide) (by decide)]
  refine ⟨by decide, by decide, by decide, by decide, by decide, by decide, by decide,
    by decide, by decide, by decide, by norm_num [centsQ_eq]⟩
/-- Claim C2, amended: `total` is always `money` of the exact decimal sum of the 7
raw (pre-formatting) per-day values — never re-derived from the rounded day
strings; when every per-day value is already an exact number of cents (and
the quantize results stay within the 28-digit context), each day slot parses
back to exactly its raw value and `total` parses back to exactly the decimal
sum of the 7 day slots.  (When a per-day value has more than 2 decimal
digits the latter equality can fail; see the counterexample.) -/
theorem c2_total_from_raw_amended (monday : CalDate) (f : DKey → ℚ) :
    (build_week_shape monday f).total =
      moneyDec (dayVal monday f 0 + dayVal monday f 1 + dayVal monday f 2 +
        dayVal monday f 3 + dayVal monday f 4 + dayVal monday f 5 + dayVal monday f 6) ∧
    (∀ c : Fin 7 → ℤ,
      (∀ i : Fin 7, dayVal monday f i = centsQ (c i)) →
      (∀ i : Fin 7, digitCount (c i).natAbs ≤ 28) →
      digitCount (c 0 + c 1 + c 2 + c 3 + c 4 + c 5 + c 6).natAbs ≤ 28 →
      (∀ i : Fin 7, parseDecLit (slotOf (build_week_shape monday f) i) = some (centsQ (c i))) ∧
      parseDecLit ((build_week_shape monday f).total) =
        some (centsQ (c 0) + centsQ (c 1) + centsQ (c 2) + centsQ (c 3) + centsQ (c 4) +
          centsQ (c 5) + centsQ (c 6))) := by
  constructor
  · show moneyDec _ = _
    simp only [build_week_shape, qadd_eq]
  · intro c hc hfit htot
    have h0 : dayVal monday f 0 = centsQ (c 0) := hc 0
    have h1 : dayVal monday f 1 = centsQ (c 1) := hc 1
    have h2 : dayVal monday f 2 = centsQ (c 2) := hc 2
    have h3 : dayVal monday f 3 = centsQ (c 3) := hc 3
    have h4 : dayVal monday f 4 = centsQ (c 4) := hc 4
    have h5 : dayVal monday f 5 = centsQ (c 5) := hc 5
    have h6 : dayVal monday f 6 = centsQ (c 6) := hc 6
    have hsum : qadd (qadd (qadd (qadd (qadd (qadd (dayVal monday f 0) (dayVal monday f 1))
        (dayVal monday f 2)) (dayVal monday f 3)) (dayVal monday f 4)) (dayVal monday f 5))
        (dayVal monday f 6) = centsQ (c 0 + c 1 + c 2 + c 3 + c 4 + c 5 + c 6) := by
      rw [h0, h1, h2, h3, h4, h5, h6]
      simp only [qadd_eq, centsQ_eq]
      push_cast
      ring
    constructor
    · intro i
      fin_cases i
      · show parseDecLit (moneyDec (dayVal monday f 0)) = some (centsQ (c 0))
        rw [h0, moneyDec_centsQ _ (hfit 0), parse_formatCents, centsQ_eq]
      · show parseDecLit (moneyDec (dayVal monday f 1)) = some (centsQ (c 1))
        rw [h1, moneyDec_centsQ _ (hfit 1), parse_formatCents, centsQ_eq]
      · show parseDecLit (moneyDec (dayVal monday f 2)) = some (centsQ (c 2))
        rw [h2, moneyDec_centsQ _ (hfit 2), parse_formatCents, centsQ_eq]
      · show parseDecLit (moneyDec (dayVal monday f 3)) = some (centsQ (c 3))
        rw [h3, moneyDec_centsQ _ (hfit 3), parse_formatCents, centsQ_eq]
      · show parseDecLit (moneyDec (dayVal monday f 4)) = some (centsQ (c 4))
        rw [h4, moneyDec_centsQ _ (hfit 4), parse_formatCents, centsQ_eq]
      · show parseDecLit (moneyDec (dayVal monday f 5)) = some (centsQ (c 5))
        rw [h5, moneyDec_centsQ _ (hfit 5), parse_formatCents, centsQ_eq]
      · show parseDecLit (moneyDec (dayVal monday f 6)) = some (centsQ (c 6))
        rw [h6, moneyDec_centsQ _ (hfit 6), parse_formatCents, centsQ_eq]
    · show parseDecLit (moneyDec _) = _
      rw [hsum, moneyDec_centsQ _ htot, parse_formatCents]
      congr 1
      simp only [centsQ_eq]
      push_cast
      ring
/-- Witness for `c2_total_from_raw_amended` at a bucket holding exactly 1.25
on the Monday: each slot parses to its raw value and `total` parses to the
decimal sum of the slots. -/
theorem c2_total_from_raw_witness :
    (∀ i : Fin 7, dayVal d20240304 bucketW2 i = centsQ (centsW2 i)) ∧
    (∀ i : Fin 7, parseDecLit (slotOf (build_week_shape d20240304 bucketW2) i) =
      some (centsQ (centsW2 i))) ∧
    parseDecLit ((build_week_shape d20240304 bucketW2).total) =
      some (centsQ (centsW2 0) + centsQ (centsW2 1) + centsQ (centsW2 2) + centsQ (centsW2 3) +
        centsQ (centsW2 4) + centsQ (centsW2 5) + centsQ (centsW2 6)) := by
  have hc : ∀ i : Fin 7, dayVal d20240304 bucketW2 i = centsQ (centsW2 i) := by decide
  have hmain := (c2_total_from_raw_amended d20240304 bucketW2).2 centsW2 hc
    (by decide) (by decide)
  exact ⟨hc, hmain.1, hmain.2⟩

/-- Claim C6, counterexample: three same-date records whose float accumulation
reassociates under a permutation — `[0.001, 0.003, 0.041]` sums to the double
printed `0.045` (→ `"0.04"` by half-even) but `[0.001, 0.041, 0.003]` sums to
`0.045000000000000005` (→ `"0.05"`), so the resulting week shapes differ. -/
theorem c6_order_counterexample :
    ([recF1, recF2, recF3].Perm [recF1, recF3, recF2]) ∧
    aggregateShapes d20240304 [recF1, recF2, recF3] ≠
      aggregateShapes d20240304 [recF1, recF3, recF2] := by
  refine ⟨List.Perm.cons recF1 (List.Perm.swap recF3 recF2 []), ?_⟩
  have e1 : (aggregateShapes d20240304 [recF1, recF2, recF3]).2.mon = "0.04" := by
    have h : (aggregate [recF1, recF2, recF3]).1 (DKey.s (to_iso (addDays d20240304 0))) =
        mkRat 3242591731706757 72057594037927936 := by decide
    show (build_week_shape d20240304 (aggregate [recF1, recF2, recF3]).1).mon = _
    unfold build_week_shape dayVal
    rw [h]
    decide
  have e2 : (aggregateShapes d20240304 [recF1, recF3, recF2]).2.mon = "0.05" := by
    have h : (aggregate [recF1, recF3, recF2]).1 (DKey.s (to_iso (addDays d20240304 0))) =
        mkRat 6485183463413515 144115188075855872 := by decide
    show (build_week_shape d20240304 (aggregate [recF1, recF3, recF2]).1).mon = _
    unfold build_week_shape dayVal
    rw [h]
    decide
  intro hEq
  have := congrArg (fun p => (p.2).mon) hEq
  simp only at this
  rw [e1, e2] at this
  exact absurd this (by decide)

/-- Claim C6, amended: permuting the input records preserves both resulting
WeekShapes whenever the records resolve to pairwise distinct date keys (or no
date); with several records on one date, float-addition reassociation can
change the rounded output (see the counterexample). -/
theorem c6_order_amended (monday : CalDate) (rows rows' : List Rec)
    (hp : rows.Perm rows')
    (hd : rows.Pairwise (fun r s =>
      resolveDate r = none ∨ resolveDate s = none ∨ resolveDate r ≠ resolveDate s)) :
    aggregateShapes monday rows = aggregateShapes monday rows' := by
  unfold aggregateShapes
  rw [aggregate_perm rows rows' hp hd]

/-- Witness for `c6_order_amended`: two distinct-date records swapped. -/
theorem c6_order_witness :
    ([recW1, recW2].Perm [recW2, recW1]) ∧
    ([recW1, recW2].Pairwise (fun r s =>
      resolveDate r = none ∨ resolveDate s = none ∨ resolveDate r ≠ resolveDate s)) ∧
    aggregateShapes d20240304 [recW1, recW2] = aggregateShapes d20240304 [recW2, recW1] :=
  ⟨List.Perm.swap recW2 recW1 [], by decide,
    c6_order_amended d20240304 [recW1, recW2] [recW2, recW1]
      (List.Perm.swap recW2 recW1 []) (by decide)⟩

/-- Claim C3, counterexample: with both candidates failing (`boom1`, then `boom2`),
the raised error carries only the second failure; the first candidate's
reason does not occur in the message, so the error does not aggregate the
last failure per candidate. -/
theorem c3_both_reasons_counterexample :
    fetch_sales tScenC "tok" "C1" "L1" "2024-03-04" "2024-03-10" = .error msgC3 ∧
    occursIn "boom2".toList msgC3.toList = true ∧
    occursIn "boom1".toList msgC3.toList = false :=
  ⟨rfl, by decide, by decide⟩

/-- Claim C3, amended: when every candidate fails, `fetch_sales` raises one fatal
error whose message carries only the most recent failure — the `last_error`
slot is overwritten per candidate, so with two failing candidates only the
second candidate's reason is reported. -/
theorem c3_last_error_amended (t : String → HttpResult)
    (tok cid lid sd ed : String)
    (h1 : failsB (t (url1 cid lid sd ed)) = true)
    (h2 : failsB (t (url2 cid lid sd ed)) = true) :
    fetch_sales t tok cid lid sd ed =
      .error ("All sales endpoints failed. Last error: " ++
        failMsg (url2 cid lid sd ed) (t (url2 cid lid sd ed))) := by
  unfold fetch_sales
  rw [fetchGo_fail_cons t none _ _ h1, fetchGo_fail_cons t _ _ _ h2]
  rfl

/-- Witness for `c3_last_error_amended` on the scenario-C transport. -/
theorem c3_last_error_witness :
    failsB (tScenC (url1 "C1" "L1" "2024-03-04" "2024-03-10")) = true ∧
    failsB (tScenC (url2 "C1" "L1" "2024-03-04" "2024-03-10")) = true ∧
    fetch_sales tScenC "tok" "C1" "L1" "2024-03-04" "2024-03-10" =
      .error ("All sales endpoints failed. Last error: " ++
        failMsg (url2 "C1" "L1" "2024-03-04" "2024-03-10")
          (tScenC (url2 "C1" "L1" "2024-03-04" "2024-03-10"))) :=
  ⟨by decide, by decide,
    c3_last_error_amended tScenC "tok" "C1" "L1" "2024-03-04" "2024-03-10"
      (by decide) (by decide)⟩

/-- Claim C5: a failing candidate (transport error, non-200 status, or a 200 with a
body that fits no recognizer) makes the loop record the error and move on;
on the first recognized 200, the envelope is normalized by accepting an
object's `data` array first, then a bare array, then an object's `sales`
array; and in Scenario B (primary 404, fallback `{"sales":[...]}`) the
fetcher returns the inner row list without raising. -/
theorem c5_fetch_envelope :
    fetch_sales tScenB "tok" "C1" "L1" "2024-03-04" "2024-03-10" =
      .ok [.obj [("day", .str "2024-03-05"), ("projected_total", .num 200)]] ∧
    (∀ (kvs : List (String × Js)) (l : List Js),
      lookupL kvs "data" = some (.arr l) → normalizeBody (.obj kvs) = some l) ∧
    (∀ l : List Js, normalizeBody (.arr l) = some l) ∧
    (∀ (kvs : List (String × Js)) (l : List Js),
      (∀ l', lookupL kvs "data" ≠ some (.arr l')) →
      lookupL kvs "sales" = some (.arr l) → normalizeBody (.obj kvs) = some l) ∧
    (∀ (t : String → HttpResult) (le : Option String) (u : String) (rest : List String),
      failsB (t u) = true →
      fetchGo t le (u :: rest) = fetchGo t (some (failMsg u (t u))) rest) := by
  refine ⟨rfl, ?_, fun l => rfl, ?_, fetchGo_fail_cons⟩
  · intro kvs l h
    unfold normalizeBody
    dsimp only
    rw [h]
  · intro kvs l hno hs
    unfold normalizeBody
    dsimp only
    rcases hd : lookupL kvs "data" with _ | v
    · rw [hs]
    · cases v with
      | arr l' => exact absurd hd (hno l')
      | null => rw [hs]
      | bool b => rw [hs]
      | num q => rw [hs]
      | str s => rw [hs]
      | obj o => rw [hs]
/-- Witness for `c5_fetch_envelope`: each envelope recognizer and the
skip-on-failure step at concrete inputs. -/
theorem c5_fetch_envelope_witness :
    fetch_sales tScenB "tok" "C1" "L1" "2024-03-04" "2024-03-10" =
      .ok [.obj [("day", .str "2024-03-05"), ("projected_total", .num 200)]] ∧
    normalizeBody (.obj [("data", .arr [.num 1]), ("sales", .arr [.num 2])]) = some [.num 1] ∧
    normalizeBody (.arr [.num 2]) = some [.num 2] ∧
    normalizeBody (.obj [("sales", .arr [.num 3])]) = some [.num 3] ∧
    fetchGo tScenB none
        [url1 "C1" "L1" "2024-03-04" "2024-03-10", url2 "C1" "L1" "2024-03-04" "2024-03-10"] =
      fetchGo tScenB
        (some (failMsg (url1 "C1" "L1" "2024-03-04" "2024-03-10")
          (tScenB (url1 "C1" "L1" "2024-03-04" "2024-03-10"))))
        [url2 "C1" "L1" "2024-03-04" "2024-03-10"] :=
  ⟨c5_fetch_envelope.1,
    c5_fetch_envelope.2.1 [("data", .arr [.num 1]), ("sales", .arr [.num 2])] [.num 1] rfl,
    c5_fetch_envelope.2.2.1 [.num 2],
    c5_fetch_envelope.2.2.2.1 [("sales", .arr [.num 3])] [.num 3]
      (fun l' hx => by
        rw [show lookupL [("sales", Js.arr [Js.num 3])] "data" = none from rfl] at hx
        exact Option.noConfusion hx)
      rfl,
    c5_fetch_envelope.2.2.2.2 tScenB none (url1 "C1" "L1" "2024-03-04" "2024-03-10")
      [url2 "C1" "L1" "2024-03-04" "2024-03-10"] (by decide)⟩

/-- Claim C7, counterexample: `money` is not total two-fraction-digit formatting —
an integer of 27 digits exceeds the default context's 28-digit precision at
quantize and falls back to `"0.00"`, and the numeric-string `"nan"`
propagates as `"NaN"` rather than `"0.00"` or a two-digit string. -/
theorem c7_money_counterexample :
    money (Js.num (mkRat 100000000000000000000000000 1)) = "0.00" ∧
    money (Js.str "nan") = "NaN" ∧ ("NaN" : String) ≠ "0.00" :=
  ⟨by decide, by decide, by decide⟩

/-- Claim C7, amended: `money` never raises; a finite `Decimal`-convertible input
whose cent rounding fits the 28-digit context yields the half-even-rounded
value as a string with exactly two fraction digits (it parses back to the
rounded cents); wider values, infinities, signaling NaNs and non-numeric
inputs yield `"0.00"`, and quiet NaNs print as `NaN`. -/
theorem c7_money_amended :
    (∀ (v : Js) (d : ℚ), pyDec v = some (.fin d) →
      digitCount (rnE (qmul d 100)).natAbs ≤ 28 →
      parseDecLit (money v) = some (centsQ (rnE (qmul d 100))) ∧
        twoFracB (money v) = true) ∧
    (∀ v : Js, pyDec v = none → money v = "0.00") ∧
    (∀ v : Js, pyDec v = some .inf → money v = "0.00") ∧
    (∀ v : Js, pyDec v = some .snan → money v = "0.00") ∧
    (∀ (v : Js) (neg : Bool), pyDec v = some (.qnan neg) →
      money v = (if neg then "-NaN" else "NaN")) := by
  refine ⟨?_, ?_, ?_, ?_, ?_⟩
  · intro v d hv hfit
    have hm : money v = moneyDec d := by
      unfold money
      rw [hv]
    rw [hm, centsQ_eq]
    exact parse_moneyDec d hfit
  · intro v hv
    unfold money
    rw [hv]
  · intro v hv
    unfold money
    rw [hv]
  · intro v hv
    unfold money
    rw [hv]
  · intro v neg hv
    unfold money
    rw [hv]

/-- Witness for `c7_money_amended` at the numeric string `"100.005"`
(half-even: 100.005 rounds to 100.00 cents = 10000). -/
theorem c7_money_witness :
    pyDec (Js.str "100.005") = some (.fin (mkRat 20001 200)) ∧
    digitCount (rnE (qmul (mkRat 20001 200) 100)).natAbs ≤ 28 ∧
    parseDecLit (money (Js.str "100.005")) = some (centsQ 10000) ∧
    twoFracB (money (Js.str "100.005")) = true := by
  have h := c7_money_amended.1 (Js.str "100.005") (mkRat 20001 200) rfl (by decide)
  have hr : rnE (qmul (mkRat 20001 200) 100) = 10000 := by decide
  exact ⟨rfl, by decide, by rw [← hr]; exact h.1, h.2⟩
/-- Each delta slot on canonical money strings: parse both as exact decimals,
subtract, and re-format — exactly the difference in cents. -/
theorem subSlot_formatCents (a b : ℤ) (h : digitCount (a - b).natAbs ≤ 28) :
    subSlot (formatCents a) (formatCents b) = some (formatCents (a - b)) := by
  unfold subSlot
  rw [parse_formatCents, parse_formatCents]
  dsimp only
  have hd : qsub ((a : ℚ) / 100) ((b : ℚ) / 100) = centsQ (a - b) := by
    rw [qsub_eq, centsQ_eq]
    push_cast
    ring
  rw [hd, moneyDec_centsQ _ h]

/-- Claim C8: for shapes whose 8 slots are canonical money strings, the delta
computation parses each pair of already-rounded strings as exact decimals,
subtracts actual minus projected, and re-formats through `money` — the result
is the slot-wise difference in cents (exact decimal subtraction, no float). -/
theorem c8_delta_exact (ca cp : Fin 8 → ℤ)
    (h : ∀ i : Fin 8, digitCount (ca i - cp i).natAbs ≤ 28) :
    deltaShape (shapeOfCents ca) (shapeOfCents cp) =
      some (shapeOfCents (fun i => ca i - cp i)) := by
  unfold deltaShape shapeOfCents
  dsimp only
  rw [subSlot_formatCents _ _ (h 0), subSlot_formatCents _ _ (h 1),
    subSlot_formatCents _ _ (h 2), subSlot_formatCents _ _ (h 3),
    subSlot_formatCents _ _ (h 4), subSlot_formatCents _ _ (h 5),
    subSlot_formatCents _ _ (h 6), subSlot_formatCents _ _ (h 7)]
  rfl

/-- Witness for `c8_delta_exact`: Scenario D — actual `{mon:"120.00",
total:"120.00"}` minus projected `{mon:"100.00", total:"100.00"}` gives
`{mon:"20.00", total:"20.00"}` with all other slots `"0.00"`. -/
theorem c8_delta_witness :
    shapeOfCents centsD1 = ⟨"120.00", "0.00", "0.00", "0.00", "0.00", "0.00", "0.00", "120.00"⟩ ∧
    shapeOfCents centsD2 = ⟨"100.00", "0.00", "0.00", "0.00", "0.00", "0.00", "0.00", "100.00"⟩ ∧
    deltaShape (shapeOfCents centsD1) (shapeOfCents centsD2) =
      some ⟨"20.00", "0.00", "0.00", "0.00", "0.00", "0.00", "0.00", "20.00"⟩ := by
  refine ⟨by decide, by decide, ?_⟩
  have h := c8_delta_exact centsD1 centsD2 (by decide)
  rw [h]
  decide

/-- Claim C9: the upsert payload merge (modelled from the spec's merge-write
semantics) replaces only the `meta` block and the three named `data`
sub-paths: any other top-level key keeps its previous value, the `data`
block's other keys keep theirs. -/
theorem c9_upsert_frame (old : List (String × Js)) (ts : String) (pr ac de : WeekShape) :
    (∀ k, k ≠ "meta" → k ≠ "data" →
      lookupL (setMerge old (payloadDoc ts pr ac de)) k = lookupL old k) ∧
    (∀ od, lookupL old "data" = some (.obj od) →
      lookupL (setMerge old (payloadDoc ts pr ac de)) "data" =
        some (.obj (mergeShallow od (payloadData pr ac de))) ∧
      (∀ s, s ≠ "proj_sales" → s ≠ "actual_sales" → s ≠ "sales_delta" →
        lookupL (mergeShallow od (payloadData pr ac de)) s = lookupL od s)) := by
  constructor
  · intro k hm hd
    unfold setMerge
    refine mergeMap_lookup_frame _ ?_
    simp [payloadDoc, lookupL, Ne.symm hm, Ne.symm hd]
  · intro od hod
    constructor
    · unfold setMerge
      rw [mergeMap_lookup_both _ hod
        (show lookupL (payloadDoc ts pr ac de) "data" =
          some (.obj (payloadData pr ac de)) from rfl)]
    · intro s h1 h2 h3
      unfold mergeShallow
      refine mergeMap_lookup_frame _ ?_
      simp [payloadData, lookupL, Ne.symm h1, Ne.symm h2, Ne.symm h3]

/-- Witness for `c9_upsert_frame`: merging the pipeline payload into a stored
document leaves the unrelated `purchases` fields intact, at the top level and
inside `data`. -/
theorem c9_upsert_frame_witness :
    lookupL (setMerge oldDoc (payloadDoc "2024-03-04T00:00:00Z" (shapeOfCents centsD1)
      (shapeOfCents centsD1) (shapeOfCents centsD1))) "purchases" =
      lookupL oldDoc "purchases" ∧
    lookupL oldDoc "purchases" = some (.obj [("week", .num 7)]) ∧
    lookupL (mergeShallow [("purchases", .num 3), ("proj_sales", .str "stale")]
      (payloadData (shapeOfCents centsD1) (shapeOfCents centsD1) (shapeOfCents centsD1)))
      "purchases" = lookupL [("purchases", Js.num 3), ("proj_sales", Js.str "stale")] "purchases" := by
  have h := c9_upsert_frame oldDoc "2024-03-04T00:00:00Z" (shapeOfCents centsD1)
    (shapeOfCents centsD1) (shapeOfCents centsD1)
  refine ⟨h.1 "purchases" (by decide) (by decide), rfl, ?_⟩
  exact (h.2 [("purchases", .num 3), ("proj_sales", .str "stale")] rfl).2 "purchases"
    (by decide) (by decide) (by decide)
